/-
Verification of the CoAct-1 delegation controller and the composed-grounded
action loop.

The development shallowly embeds the Python sources:
  - `cua/libs/python/agent/agent/loops/composed_grounded.py`
    (the `ComposedGroundedConfig` agent loop: screenshot lookup, failed
    coordinate extraction, prompt image augmentation, composed model parsing
    and the grounding retry loop), and
  - `coact_1_example.py`
    (the `CoAct1` delegation controller, its own copy of
    `get_last_image_b64`, and the GUI operator's restricted interface proxy).

External collaborators (the litellm completion service, the grounding
network, the remote computer backend, and the missing `responses.py`
conversion helpers) are taken as parameters of the embedded functions, in
line with the specification's scope section.
-/
import Mathlib

set_option maxRecDepth 4000

/-! ## String helpers

Python's `str.startswith` and `str.split(sep, 1)` are embedded as functions
on the underlying character lists, so that concrete evaluations reduce. -/

/-- Embeds Python `s.startswith(p)` as a prefix test on character lists. -/
def startsWithChars : List Char → List Char → Bool
  | [], _ => true
  | _ :: _, [] => false
  | a :: as, b :: bs => a == b && startsWithChars as bs

/-- Splits a character list at the first occurrence of `c`, returning the
characters before and after it; `none` when `c` does not occur.  This is
Python `s.split(c, 1)` together with the `c in s` membership test. -/
def splitFirstChar (c : Char) : List Char → Option (List Char × List Char)
  | [] => none
  | a :: as =>
    if a = c then some ([], as)
    else (splitFirstChar c as).map (fun p => (a :: p.1, p.2))

theorem startsWithChars_append (p r : List Char) :
    startsWithChars p (p ++ r) = true := by
  induction p with
  | nil => rfl
  | cons a as ih => simp [startsWithChars, ih]

theorem splitFirstChar_eq_none {c : Char} {l : List Char} (h : c ∉ l) :
    splitFirstChar c l = none := by
  induction l with
  | nil => rfl
  | cons a as ih =>
    simp only [List.mem_cons, not_or] at h
    simp [splitFirstChar, Ne.symm h.1, ih h.2]

theorem splitFirstChar_append_cons {c : Char} {a : List Char}
    (b : List Char) (h : c ∉ a) :
    splitFirstChar c (a ++ c :: b) = some (a, b) := by
  induction a with
  | nil => simp [splitFirstChar]
  | cons x xs ih =>
    simp only [List.mem_cons, not_or] at h
    simp [splitFirstChar, Ne.symm h.1, ih h.2]

theorem splitFirstChar_isSome {c : Char} {l : List Char} (h : c ∈ l) :
    (splitFirstChar c l).isSome = true := by
  induction l with
  | nil => cases h
  | cons a as ih =>
    by_cases ha : a = c
    · simp [splitFirstChar, ha]
    · have h' : c ∈ as := by
        rcases List.mem_cons.mp h with h | h
        · exact absurd h.symm ha
        · exact h
      have hh := ih h'
      cases hs : splitFirstChar c as with
      | none => rw [hs] at hh; simp at hh
      | some p => simp [splitFirstChar, ha, hs]

theorem splitFirstChar_spec {c : Char} :
    ∀ {l a b : List Char}, splitFirstChar c l = some (a, b) →
      l = a ++ c :: b ∧ c ∉ a := by
  intro l
  induction l with
  | nil => intro a b h; cases h
  | cons x xs ih =>
    intro a b h
    by_cases hx : x = c
    · simp only [splitFirstChar, if_pos hx] at h
      cases h
      simp [hx]
    · simp only [splitFirstChar, if_neg hx, Option.map_eq_some'] at h
      obtain ⟨p, hp, hv⟩ := h
      obtain ⟨h1, h2⟩ := ih hp
      cases hv
      constructor
      · simp [h1]
      · simp only [List.mem_cons, not_or]
        exact ⟨fun hc => hx hc.symm, h2⟩

/-! ## Data-URL images

Both source files recognise screenshots through the literal data-URL marker
`"data:image/png;base64,"` and extract the payload with `split(",", 1)[1]`. -/

/-- The data-URL marker tested by `startswith` in both sources. -/
def pngHeader : String := "data:image/png;base64,"

/-- Builds the data URL the sources embed screenshots as. -/
def pngUrl (b64 : String) : String := pngHeader ++ b64

/-- Embeds `image_url.startswith("data:image/png;base64,")`. -/
def pngStarts (url : String) : Bool := startsWithChars pngHeader.data url.data

/-- Embeds `image_url.split(",", 1)[1]`; the callers only evaluate it under a
successful `pngStarts` guard, so the no-comma fallback is unreachable. -/
def b64Payload (url : String) : String :=
  match splitFirstChar ',' url.data with
  | some p => String.mk p.2
  | none => ""

theorem pngUrl_data (b : String) :
    (pngUrl b).data = pngHeader.data ++ b.data := by
  cases b; rfl

theorem pngStarts_pngUrl (b : String) : pngStarts (pngUrl b) = true := by
  rw [pngStarts, pngUrl_data]
  exact startsWithChars_append _ _

theorem b64Payload_pngUrl (b : String) : b64Payload (pngUrl b) = b := by
  have hmem : ',' ∉ ("data:image/png;base64" : String).data := by decide
  have h1 : (pngUrl b).data
      = ("data:image/png;base64" : String).data ++ ',' :: b.data := by
    rw [pngUrl_data]
    have h2 : pngHeader.data
        = ("data:image/png;base64" : String).data ++ [','] := by decide
    rw [h2, List.append_assoc]
    rfl
  have hsplit : splitFirstChar ',' ((pngUrl b).data)
      = some (("data:image/png;base64" : String).data, b.data) := by
    rw [h1]
    exact splitFirstChar_append_cons _ hmem
  simp only [b64Payload, hsplit]

/-- Python truthiness of an optional string: `None` and `""` are falsy. -/
def truthy (o : Option String) : Bool := o.getD "" != ""

/-! ## Message data model

Conversation history items are heterogeneous Python dicts; the embedding
records exactly the fields the embedded functions read: `role`, `content`
(string or list of content items), `type`, `output` (string, dict or list)
and `action` (for `computer_call` items). -/

/-- A content item inside a `content` or `output` list: its `type` tag and
the nested `item["image_url"]["url"]` value when present. -/
structure ContentItem where
  ty : Option String
  imageUrl : Option String
deriving DecidableEq

/-- The `output` dict of a `computer_call_output` item: its `type` tag and
its (directly held) `image_url` string. -/
structure OutDict where
  ty : Option String
  imageUrl : Option String
deriving DecidableEq

/-- The `content` field of a message: absent, a plain string, or a list of
content items. -/
inductive MsgContent where
  | noContent
  | str (s : String)
  | list (l : List ContentItem)
deriving DecidableEq

/-- The `output` field of a message: absent, a plain string, a dict, or a
list of content items. -/
inductive MsgOutput where
  | noOutput
  | str (s : String)
  | dict (d : OutDict)
  | list (l : List ContentItem)
deriving DecidableEq

/-- The `action` dict of a `computer_call` item; only presence of the `x`
and `y` keys and their values are read by `get_failed_coordinates`. -/
structure ActionXY where
  x : Option Int
  y : Option Int
deriving DecidableEq

/-- A history item, restricted to the fields the embedded code reads. -/
structure Message where
  role : Option String
  content : MsgContent
  ty : Option String
  output : MsgOutput
  action : Option ActionXY
deriving DecidableEq

/-- The `content` field when it is a list (`isinstance(content, list)`). -/
def Message.contentList (m : Message) : Option (List ContentItem) :=
  match m.content with
  | .list l => some l
  | _ => none

/-- The `output` field when it is a dict. -/
def Message.outputDict (m : Message) : Option OutDict :=
  match m.output with
  | .dict d => some d
  | _ => none

/-- The `output` field when it is a list. -/
def Message.outputList (m : Message) : Option (List ContentItem) :=
  match m.output with
  | .list l => some l
  | _ => none

/-- A `{"type": "text", ...}` content item (its text is never read by the
embedded scanners). -/
def textItem : ContentItem := ⟨some "text", none⟩

/-- A `{"type": "image_url", "image_url": {"url": "data:image/png;base64,…"}}`
content item holding the screenshot `b64`. -/
def imageItem (b64 : String) : ContentItem := ⟨some "image_url", some (pngUrl b64)⟩

/-! ## `composed_grounded.py`: screenshot lookup and failed coordinates -/

namespace ComposedGrounded

/-- Scans a reversed `content`/`output` list for the latest PNG data-URL
image; an `image_url` item whose URL lacks the PNG marker is passed over.
Embeds the inner loops of `get_last_image_b64` in `composed_grounded.py`. -/
def findPng : List ContentItem → Option String
  | [] => none
  | it :: rest =>
    if it.ty == some "image_url" && pngStarts (it.imageUrl.getD "") then
      some (b64Payload (it.imageUrl.getD ""))
    else findPng rest

/-- The outer loop of `get_last_image_b64` over the reversed history:
user messages with list content, `computer_call_output` dict outputs and
`function_call_output` list outputs, in that `elif` order. -/
def scanComposed : List Message → Option String
  | [] => none
  | m :: rest =>
    match (if m.role == some "user" then m.contentList else none) with
    | some items =>
      match findPng items.reverse with
      | some p => some p
      | none => scanComposed rest
    | none =>
      match (if m.ty == some "computer_call_output" then m.outputDict else none) with
      | some d =>
        if d.ty == some "input_image" && pngStarts (d.imageUrl.getD "") then
          some (b64Payload (d.imageUrl.getD ""))
        else scanComposed rest
      | none =>
        match (if m.ty == some "function_call_output" then m.outputList else none) with
        | some items =>
          match findPng items.reverse with
          | some p => some p
          | none => scanComposed rest
        | none => scanComposed rest

/-- `get_last_image_b64` of `composed_grounded.py`: the base64 payload of the
most recent PNG data-URL image anywhere in the history, else `None`. -/
def get_last_image_b64 (messages : List Message) : Option String :=
  scanComposed messages.reverse

/-- `get_failed_coordinates` of `composed_grounded.py`: the `(x, y)` pairs of
every `computer_call` item whose `action` dict carries both keys. -/
def get_failed_coordinates : List Message → List (Int × Int)
  | [] => []
  | m :: rest =>
    (if m.ty == some "computer_call" then
      match m.action with
      | some a =>
        match a.x, a.y with
        | some x, some y => [(x, y)]
        | _, _ => []
      | none => []
    else []) ++ get_failed_coordinates rest

/-! ### The grounding retry loop (`predict_step`, step 5)

The grounding agent's `predict_click` is an external collaborator; it is
modelled as a function from the description and the attempt index to an
optional coordinate (the instruction actually sent is recorded in the call
trace, so the augmentation of retries is still observable). -/

/-- One recorded invocation of the grounding agent. -/
structure GroundCall where
  desc : String
  attempt : Nat
  instruction : String
  result : Option (Int × Int)
deriving DecidableEq

/-- Renders a failed-coordinate list the way the f-string
`", ".join(f"({x}, {y})" ...)` does. -/
def formatCoords (coords : List (Int × Int)) : String :=
  String.intercalate ", "
    (coords.map (fun p => "(" ++ toString p.1 ++ ", " ++ toString p.2 ++ ")"))

/-- The instruction sent on a given attempt: the literal description, or the
description plus the avoid-these-coordinates clause when this is a retry and
failed coordinates exist (`composed_grounded.py`, lines 391-395). -/
def enhancedInstruction (desc : String) (failedCoords : List (Int × Int))
    (attempt : Nat) : String :=
  if !failedCoords.isEmpty && decide (0 < attempt) then
    desc ++ ". Avoid these previously failed coordinates: " ++ formatCoords failedCoords
  else desc

/-- The `for attempt in range(3)` retry loop for one description, from
attempt index `k` with `fuel` attempts left: returns the first successful
coordinate (stopping immediately) and the trace of grounding calls made. -/
def groundAttempts (ground : String → Nat → Option (Int × Int))
    (failedCoords : List (Int × Int)) (desc : String) :
    Nat → Nat → Option (Int × Int) × List GroundCall
  | _, 0 => (none, [])
  | k, fuel + 1 =>
    let instr := enhancedInstruction desc failedCoords k
    match ground desc k with
    | some c => (some c, [⟨desc, k, instr, some c⟩])
    | none =>
      let rest := groundAttempts ground failedCoords desc (k + 1) fuel
      (rest.1, ⟨desc, k, instr, none⟩ :: rest.2)

/-- Resolving one description: three attempts starting at attempt 0. -/
def groundOneDesc (ground : String → Nat → Option (Int × Int))
    (failedCoords : List (Int × Int)) (desc : String) :
    Option (Int × Int) × List GroundCall :=
  groundAttempts ground failedCoords desc 0 3

/-- Python dict assignment `self.desc2xy[desc] = coords` on the
association-list model of the cache. -/
def insertCoord (m : List (String × Int × Int)) (k : String) (v : Int × Int) :
    List (String × Int × Int) :=
  (k, v) :: m.filter (fun p => p.1 != k)

/-- The `for desc in element_descriptions` loop: every extracted description
is ground-attempted (the cache is never consulted here); a success overwrites
the cache entry, exhausted retries leave the cache untouched. -/
def groundLoop (ground : String → Nat → Option (Int × Int))
    (failedCoords : List (Int × Int)) :
    List String → List (String × Int × Int) →
    List (String × Int × Int) × List GroundCall
  | [], m => (m, [])
  | d :: ds, m =>
    let one := groundOneDesc ground failedCoords d
    let m' := match one.1 with
      | some c => insertCoord m d c
      | none => m
    let rest := groundLoop ground failedCoords ds m'
    (rest.1, one.2 ++ rest.2)

/-- The number of grounding invocations a call trace holds for `desc`. -/
def callsFor (desc : String) (calls : List GroundCall) : Nat :=
  (calls.filter (fun c => c.desc == desc)).length

end ComposedGrounded

/-! ## `composed_grounded.py`: thinking-model prompt construction (step 2.1)

The completion messages produced by the (external)
`convert_responses_items_to_completion_messages` are dicts with a `role` and
a `content` that is a string or a list of text/image parts. -/

/-- A part of a completion-message content list. -/
inductive CPart where
  | text (s : String)
  | image (url : String)
  | other
deriving DecidableEq

/-- Whether a part is an `image_url` item (the filter in step 2.1 removes
exactly these). -/
def CPart.isImage : CPart → Bool
  | .image _ => true
  | _ => false

/-- The content of a completion message. -/
inductive CContent where
  | noContent
  | str (s : String)
  | list (l : List CPart)
deriving DecidableEq

/-- A completion message as sent to the thinking model. -/
structure CMsg where
  role : Option String
  content : CContent
deriving DecidableEq

/-- The BEFORE label inserted ahead of the stored before-image. -/
def beforeLabel : String :=
  "\n--- BEFORE ACTION (what screen looked like when previous action was decided) ---"

/-- The AFTER label inserted ahead of the current image. -/
def afterLabel : String :=
  "\n--- AFTER ACTION (actual result of the previous action) ---"

/-- String content is first converted to a one-text list; list content is
kept; anything else leaves the message untouched (step 2.1 guards). -/
def normalizeContent : CContent → Option (List CPart)
  | .str s => some [CPart.text s]
  | .list l => some l
  | .noContent => none

/-- `any(msg.get("type") in ["function_call_output", "computer_call_output"]
for msg in messages)`: whether the supplied history holds tool results. -/
def hasToolResults (messages : List Message) : Bool :=
  messages.any (fun m =>
    m.ty == some "function_call_output" || m.ty == some "computer_call_output")

/-- Step 2.1 of `predict_step` (`composed_grounded.py`, lines 237-285):
strip existing images from the last user message, then append either the
labelled before/after pair (subsequent turns with both images at hand) or
the single current screenshot (first turn), and finally store the current
image as the next call's before-image.  Returns the updated completion
messages and the updated `last_before_image`. -/
def addImagesToLastUserMessage (messages : List Message)
    (completionMessages : List CMsg)
    (lastBeforeImage lastImage : Option String) :
    List CMsg × Option String :=
  match completionMessages.getLast? with
  | none => (completionMessages, lastBeforeImage)
  | some last =>
    if last.role == some "user" then
      match normalizeContent last.content with
      | none => (completionMessages, lastBeforeImage)
      | some l0 =>
        let stripped := l0.filter (fun p => !p.isImage)
        let appended :=
          if hasToolResults messages && truthy lastBeforeImage && truthy lastImage then
            stripped ++
              [CPart.text beforeLabel,
               CPart.image (pngUrl (lastBeforeImage.getD "")),
               CPart.text afterLabel,
               CPart.image (pngUrl (lastImage.getD ""))]
          else if truthy lastImage then
            stripped ++ [CPart.image (pngUrl (lastImage.getD ""))]
          else stripped
        let newBefore := if truthy lastImage then lastImage else lastBeforeImage
        (completionMessages.dropLast ++ [⟨last.role, CContent.list appended⟩],
         newBefore)
    else (completionMessages, lastBeforeImage)

/-- The content parts of the last message of a completion-message list. -/
def lastContentParts (completionMessages : List CMsg) : Option (List CPart) :=
  match completionMessages.getLast? with
  | some m =>
    match m.content with
    | .list l => some l
    | _ => none
  | none => none

/-- The image URLs a part list holds, in order. -/
def imagesOf (l : List CPart) : List String :=
  l.filterMap (fun p =>
    match p with
    | .image u => some u
    | _ => none)

/-! ## `composed_grounded.py`: composed-model parsing and `predict_step` -/

/-- `if "+" not in model: raise ValueError(...)` followed by
`model.split("+", 1)`: the grounding model is everything before the first
`'+'`, the thinking model everything after it. -/
def parseComposedModel (model : String) : Except Unit (String × String) :=
  match splitFirstChar '+' model.data with
  | none => Except.error ()
  | some p => Except.ok (String.mk p.1, String.mk p.2)

/-- The observable effects of one `predict_step` invocation, in program
order. -/
inductive StepEvent where
  | screenshotCall
  | rewriteHistory
  | thinkingCall (thinkingModel : String)
  | groundingCall (c : ComposedGrounded.GroundCall)
deriving DecidableEq

/-- What `predict_step` returns and leaves behind: the prompt it sent, the
grounding calls it made, the updated cache and the updated before-image. -/
structure PredictStepResult where
  completionMessages : List CMsg
  groundCalls : List ComposedGrounded.GroundCall
  desc2xyOut : List (String × Int × Int)
  lastBeforeImageOut : Option String
deriving DecidableEq

/-- Steps 0-0.1 of `predict_step`: the latest screenshot from the history,
else (when a handler is bound) the result of an automatic screenshot, whose
failure is caught and degrades to `None`. -/
def effectiveLastImage (messages : List Message) (handlerPresent : Bool)
    (screenshotOutcome : Option String) : Option String :=
  let found := ComposedGrounded.get_last_image_b64 messages
  if !truthy found && handlerPresent then screenshotOutcome else found

/-- `ComposedGroundedConfig.predict_step`.  External collaborators appear as
parameters: `screenshotOutcome` is what `computer_handler.screenshot()`
produces (`none` when it raises), `toCompletion` stands for the missing
`responses.py` history conversion (steps 1-2), `elementDescriptions` is what
`get_all_element_descriptions` extracts from the thinking model's reply, and
`ground desc k` is the grounding agent's `predict_click` result on the k-th
attempt for `desc`.  The function returns the step result (or the
`ValueError` for an unparseable composed model) paired with the trace of
observable effects in program order. -/
def predict_step (model : String) (messages : List Message)
    (handlerPresent : Bool) (screenshotOutcome : Option String)
    (toCompletion : List Message → List CMsg)
    (elementDescriptions : List String) (agentFound : Bool)
    (ground : String → Nat → Option (Int × Int))
    (desc2xy : List (String × Int × Int)) (lastBeforeImage : Option String) :
    Except Unit PredictStepResult × List StepEvent :=
  match parseComposedModel model with
  | Except.error () => (Except.error (), [])
  | Except.ok gt =>
    let lastImage := effectiveLastImage messages handlerPresent screenshotOutcome
    let screenshotEvents :=
      if !truthy (ComposedGrounded.get_last_image_b64 messages) && handlerPresent then
        [StepEvent.screenshotCall]
      else []
    let failedCoords := ComposedGrounded.get_failed_coordinates messages
    let converted := toCompletion messages
    let augmented := addImagesToLastUserMessage messages converted lastBeforeImage lastImage
    let groundPhase :=
      if !elementDescriptions.isEmpty && truthy lastImage then
        if agentFound then
          ComposedGrounded.groundLoop ground failedCoords elementDescriptions desc2xy
        else (desc2xy, [])
      else (desc2xy, [])
    (Except.ok ⟨augmented.1, groundPhase.2, groundPhase.1, augmented.2⟩,
     screenshotEvents ++ [StepEvent.rewriteHistory, StepEvent.thinkingCall gt.2]
       ++ groundPhase.2.map StepEvent.groundingCall)

/-- `ComposedGroundedConfig.predict_click`: parse the composed model, then
delegate to the grounding agent when its configuration is found, else return
`None`.  `groundResult` is the external grounding agent's answer. -/
def predict_click (model : String) (agentFound : Bool)
    (groundResult : Option (Int × Int)) : Except Unit (Option (Int × Int)) :=
  match parseComposedModel model with
  | Except.error () => Except.error ()
  | Except.ok _ =>
    if agentFound then Except.ok groundResult else Except.ok none

/-! ## `coact_1_example.py`: its own `get_last_image_b64`

This copy differs from the one in `composed_grounded.py` in the
`function_call_output` branch: the `startswith` test is indented one level
out, so it runs for every content item and reads the function-scoped
`image_url` variable, which may not have been assigned yet.  The embedding
threads that variable (`none` = unassigned) through the whole scan and
raises `UnboundLocalError` where Python would. -/

namespace CoactExample

/-- The Python exceptions the embedded `coact_1_example.py` code can raise. -/
inductive PyErr where
  | unboundLocalError
  | jsonDecodeError
deriving DecidableEq

/-- The inner loop over a reversed user-message content list: returns the
payload when a PNG image is found, else the updated `image_url` variable.
(The `startswith` test here is correctly nested, so the variable is only
read after being assigned.) -/
def userScan : List ContentItem → Option String → Option String × Option String
  | [], var => (none, var)
  | it :: rest, var =>
    if it.ty == some "image_url" then
      let url := it.imageUrl.getD ""
      if pngStarts url then (some (b64Payload url), some url)
      else userScan rest (some url)
    else userScan rest var

/-- The `computer_call_output` branch on an output dict. -/
def ccoScan (d : OutDict) (var : Option String) : Option String × Option String :=
  if d.ty == some "input_image" then
    let url := d.imageUrl.getD ""
    if pngStarts url then (some (b64Payload url), some url)
    else (none, some url)
  else (none, var)

/-- The mis-indented `function_call_output` branch: the assignment to
`image_url` is guarded by the item type, but the `startswith` test is not,
so a content item seen before any assignment reads the unassigned variable
and raises `UnboundLocalError`. -/
def fcoScan : List ContentItem → Option String →
    Except PyErr (Option String × Option String)
  | [], var => Except.ok (none, var)
  | it :: rest, var =>
    let var' := if it.ty == some "image_url" then some (it.imageUrl.getD "") else var
    match var' with
    | none => Except.error PyErr.unboundLocalError
    | some url =>
      if pngStarts url then Except.ok (some (b64Payload url), var')
      else fcoScan rest var'

/-- The outer loop of `coact_1_example.py`'s `get_last_image_b64` over the
reversed history, threading the function-scoped `image_url` variable. -/
def scanCoact : List Message → Option String → Except PyErr (Option String)
  | [], _ => Except.ok none
  | m :: rest, var =>
    match (if m.role == some "user" then m.contentList else none) with
    | some items =>
      match userScan items.reverse var with
      | (some p, _) => Except.ok (some p)
      | (none, var') => scanCoact rest var'
    | none =>
      match (if m.ty == some "computer_call_output" then m.outputDict else none) with
      | some d =>
        match ccoScan d var with
        | (some p, _) => Except.ok (some p)
        | (none, var') => scanCoact rest var'
      | none =>
        match (if m.ty == some "function_call_output" then m.outputList else none) with
        | some items =>
          match fcoScan items.reverse var with
          | Except.error e => Except.error e
          | Except.ok (some p, _) => Except.ok (some p)
          | Except.ok (none, var') => scanCoact rest var'
        | none => scanCoact rest var

/-- `get_last_image_b64` of `coact_1_example.py`: as the composed-grounded
one, but with the mis-indented `function_call_output` branch, so it can
raise `UnboundLocalError` instead of returning. -/
def get_last_image_b64 (messages : List Message) : Except PyErr (Option String) :=
  scanCoact messages.reverse none

/-! ## `coact_1_example.py`: the CoAct-1 delegation controller (`CoAct1.run`)

The Orchestrator, the two sub-agents and the summarizer are external
collaborators.  A planning round's outcome is the first `function_call` item
of the Orchestrator's turn (or none); its arguments are a dict, a string
that parses to a dict, or a string on which `json.loads` raises.
`_summarize_interaction` wraps its completion call in `try/except`, so it
never raises and its text is irrelevant here. -/

/-- The delegation arguments attached to an Orchestrator tool call. -/
inductive OrchArgs where
  | dict (subtask : String)
  | strOk (subtask : String)
  | strBad
deriving DecidableEq

/-- One Orchestrator planning turn: either no `function_call` item at all,
or the first such item's name and arguments. -/
inductive OrchTurn where
  | noCall
  | call (name : String) (args : OrchArgs)
deriving DecidableEq

/-- `arguments = json.loads(arguments)` (when a string) followed by
`arguments.get("subtask", "")`: yields the subtask or raises. -/
def argSubtask : OrchArgs → Except PyErr String
  | .dict s => Except.ok s
  | .strOk s => Except.ok s
  | .strBad => Except.error PyErr.jsonDecodeError

/-- The two sub-agents a round can delegate to. -/
inductive Agent where
  | programmer
  | guiOperator
deriving DecidableEq

/-- What one planning round did. -/
inductive RoundAction where
  | noCall
  | completed
  | delegated (a : Agent)
  | skippedUnknown (name : String)
deriving DecidableEq

/-- How the delegation loop ended. -/
inductive ExitKind where
  | done
  | noDelegation
  | stepLimit
deriving DecidableEq

/-- The per-round `"What is the next subtask..."` user prompt (plain string
content). -/
def promptMsg : Message :=
  ⟨some "user", MsgContent.str "What is the next subtask based on the current progress? (or you can call task_completed)",
   none, MsgOutput.noOutput, none⟩

/-- The delegation `function_call` item appended to Orchestrator history
(none of its payload fields is read by the history scanners). -/
def delegationMsg (_name : String) : Message :=
  ⟨none, MsgContent.noContent, some "function_call", MsgOutput.noOutput, none⟩

/-- A sub-agent seed message carrying the subtask text and the screenshot. -/
def userMsgWithImage (b64 : String) : Message :=
  ⟨some "user", MsgContent.list [textItem, imageItem b64], none, MsgOutput.noOutput, none⟩

/-- A sub-agent seed message carrying only the subtask text. -/
def userMsgTextOnly : Message :=
  ⟨some "user", MsgContent.str "subtask", none, MsgOutput.noOutput, none⟩

/-- The `function_call_output` appended to Orchestrator history after a
round: summary text plus, when available, the final screenshot. -/
def fcoMsg (summaryImage : Option String) : Message :=
  ⟨none, MsgContent.noContent, some "function_call_output",
   MsgOutput.list ([textItem] ++
     (if truthy summaryImage then [imageItem (summaryImage.getD "")] else [])),
   none⟩

/-- The initial Orchestrator history item: the task text and the initial
screenshot, shaped exactly like a sub-agent seed message. -/
def initialUserMsg (b64 : String) : Message := userMsgWithImage b64

/-- One round of `CoAct1.run`'s `for i in range(10)` loop and the rounds
after it.  `i` is the round index, `fuel` the remaining iterations, `hist`
the Orchestrator history.  `orch i` is round `i`'s planning turn and
`subOut i` the output items the selected sub-agent appends to its seeded
history.  Returns the actions of the executed rounds and the exit kind, or
the uncaught Python exception. -/
def runAux (orch : Nat → OrchTurn) (subOut : Nat → List Message) :
    Nat → Nat → List Message → Except PyErr (List RoundAction × ExitKind)
  | _, 0, _ => Except.ok ([], ExitKind.stepLimit)
  | i, fuel + 1, hist =>
    let hist1 := hist ++ [promptMsg]
    match orch i with
    | OrchTurn.noCall => Except.ok ([RoundAction.noCall], ExitKind.noDelegation)
    | OrchTurn.call name args =>
      match argSubtask args with
      | Except.error e => Except.error e
      | Except.ok _subtask =>
        let hist2 := hist1 ++ [delegationMsg name]
        if name == "task_completed" then
          Except.ok ([RoundAction.completed], ExitKind.done)
        else
          match (if name == "delegate_to_programmer" then some Agent.programmer
                 else if name == "delegate_to_gui_operator" then some Agent.guiOperator
                 else none) with
          | none =>
            match runAux orch subOut (i + 1) fuel hist2 with
            | Except.error e => Except.error e
            | Except.ok r => Except.ok (RoundAction.skippedUnknown name :: r.1, r.2)
          | some agent =>
            match get_last_image_b64 hist2 with
            | Except.error e => Except.error e
            | Except.ok curImg =>
              let seed := if truthy curImg then [userMsgWithImage (curImg.getD "")]
                          else [userMsgTextOnly]
              let subHist := seed ++ subOut i
              match get_last_image_b64 subHist with
              | Except.error e => Except.error e
              | Except.ok sumImg =>
                let hist3 := hist2 ++ [fcoMsg sumImg]
                match runAux orch subOut (i + 1) fuel hist3 with
                | Except.error e => Except.error e
                | Except.ok r => Except.ok (RoundAction.delegated agent :: r.1, r.2)

/-- `CoAct1.run`: seed the Orchestrator history with the task text and the
initial screenshot `initB64`, then run at most 10 planning rounds. -/
def run (orch : Nat → OrchTurn) (subOut : Nat → List Message)
    (initB64 : String) : Except PyErr (List RoundAction × ExitKind) :=
  runAux orch subOut 0 10 [initialUserMsg initB64]

/-! ## `coact_1_example.py`: the GUI operator's restricted computer proxy -/

/-- The methods defined on `GuiInterfaceProxy`, in source order. -/
def guiInterfaceProxyMethods : List String :=
  ["left_click", "right_click", "double_click", "move_cursor", "mouse_down",
   "mouse_up", "drag", "type_text", "press_key", "hotkey", "screenshot",
   "get_screen_size", "scroll"]

/-- The proxy's pointer primitives (the source's "GUI Mouse Methods"). -/
def pointerMethods : List String :=
  ["left_click", "right_click", "double_click", "move_cursor", "mouse_down",
   "mouse_up", "drag"]

/-- The proxy's keyboard primitives (the source's "GUI Keyboard Methods"). -/
def keyboardMethods : List String :=
  ["type_text", "press_key", "hotkey"]

/-- The proxy's screen primitives (the source's "GUI Screen Methods"). -/
def screenMethods : List String :=
  ["screenshot", "get_screen_size", "scroll"]

/-- The shell/command-execution operations of the full backend
(`ProgrammerTools`). -/
def shellMethods : List String :=
  ["run_command", "run_command_in_background", "venv_cmd"]

end CoactExample

/-! ## Lemmas about the grounding retry loop -/

namespace ComposedGrounded

theorem groundAttempts_mem (ground : String → Nat → Option (Int × Int))
    (fc : List (Int × Int)) (d : String) :
    ∀ (fuel k : Nat) (call : GroundCall),
      call ∈ (groundAttempts ground fc d k fuel).2 →
      call.desc = d ∧ call.instruction = enhancedInstruction d fc call.attempt := by
  intro fuel
  induction fuel with
  | zero => intro k call h; simp [groundAttempts] at h
  | succ n ih =>
    intro k call h
    simp only [groundAttempts] at h
    cases hg : ground d k with
    | some c =>
      rw [hg] at h
      simp only [List.mem_singleton] at h
      subst h
      exact ⟨rfl, rfl⟩
    | none =>
      rw [hg] at h
      simp only [List.mem_cons] at h
      rcases h with h | h
      · subst h; exact ⟨rfl, rfl⟩
      · exact ih (k + 1) call h

theorem groundOneDesc_trace_pos (ground : String → Nat → Option (Int × Int))
    (fc : List (Int × Int)) (d : String) :
    0 < (groundOneDesc ground fc d).2.length := by
  simp only [groundOneDesc, groundAttempts]
  cases hg : ground d 0 <;> simp

theorem groundOneDesc_fail {ground : String → Nat → Option (Int × Int)}
    (fc : List (Int × Int)) {d : String}
    (h : ∀ k, k < 3 → ground d k = none) :
    groundOneDesc ground fc d =
      (none, [⟨d, 0, enhancedInstruction d fc 0, none⟩,
              ⟨d, 1, enhancedInstruction d fc 1, none⟩,
              ⟨d, 2, enhancedInstruction d fc 2, none⟩]) := by
  have h0 := h 0 (by omega)
  have h1 := h 1 (by omega)
  have h2 := h 2 (by omega)
  simp [groundOneDesc, groundAttempts, h0, h1, h2]

theorem groundOneDesc_succ {ground : String → Nat → Option (Int × Int)}
    (fc : List (Int × Int)) {d : String} {k : Nat} {c : Int × Int}
    (hk : k < 3) (hmin : ∀ j, j < k → ground d j = none)
    (hg : ground d k = some c) :
    (groundOneDesc ground fc d).1 = some c ∧
      (groundOneDesc ground fc d).2.length = k + 1 := by
  interval_cases k
  · simp [groundOneDesc, groundAttempts, hg]
  · have h0 := hmin 0 (by omega)
    simp [groundOneDesc, groundAttempts, h0, hg]
  · have h0 := hmin 0 (by omega)
    have h1 := hmin 1 (by omega)
    simp [groundOneDesc, groundAttempts, h0, h1, hg]

theorem callsFor_append (desc : String) (a b : List GroundCall) :
    callsFor desc (a ++ b) = callsFor desc a + callsFor desc b := by
  simp [callsFor, List.filter_append]

theorem callsFor_eq_length {desc : String} :
    ∀ {calls : List GroundCall}, (∀ call ∈ calls, call.desc = desc) →
      callsFor desc calls = calls.length := by
  intro calls
  induction calls with
  | nil => intro _; simp [callsFor]
  | cons c cs ih =>
    intro h
    have hc : c.desc = desc := h c (List.mem_cons_self _ _)
    have ih' := ih (fun x hx => h x (List.mem_cons_of_mem _ hx))
    simp [callsFor, List.filter_cons, hc] at ih' ⊢
    exact ih'

theorem callsFor_eq_zero {desc d : String} (hne : d ≠ desc) :
    ∀ {calls : List GroundCall}, (∀ call ∈ calls, call.desc = d) →
      callsFor desc calls = 0 := by
  intro calls
  induction calls with
  | nil => intro _; simp [callsFor]
  | cons c cs ih =>
    intro h
    have hc : c.desc = d := h c (List.mem_cons_self _ _)
    have ih' := ih (fun x hx => h x (List.mem_cons_of_mem _ hx))
    simp [callsFor, List.filter_cons, hc, hne] at ih' ⊢
    exact ih'

theorem groundLoop_callsFor (ground : String → Nat → Option (Int × Int))
    (fc : List (Int × Int)) (desc : String) :
    ∀ (ds : List String) (m : List (String × Int × Int)),
      callsFor desc (groundLoop ground fc ds m).2
        = ds.count desc * (groundOneDesc ground fc desc).2.length := by
  intro ds
  induction ds with
  | nil => intro m; simp [groundLoop, callsFor]
  | cons d dt ih =>
    intro m
    simp only [groundLoop]
    rw [callsFor_append]
    by_cases hd : d = desc
    · subst hd
      have hlen : callsFor d (groundOneDesc ground fc d).2
          = (groundOneDesc ground fc d).2.length :=
        callsFor_eq_length
          (fun call hc => (groundAttempts_mem ground fc d 3 0 call hc).1)
      rw [hlen, ih, List.count_cons_self, Nat.succ_mul]
      ring
    · have hzero : callsFor desc (groundOneDesc ground fc d).2 = 0 :=
        callsFor_eq_zero hd
          (fun call hc => (groundAttempts_mem ground fc d 3 0 call hc).1)
      rw [hzero, ih, List.count_cons_of_ne (fun hx => hd hx.symm)]
      ring

theorem lookup_filter_ne {k d : String} (h : d ≠ k) :
    ∀ (m : List (String × Int × Int)),
      List.lookup d (m.filter (fun p => p.1 != k)) = List.lookup d m := by
  intro m
  induction m with
  | nil => simp
  | cons p rest ih =>
    obtain ⟨a, v⟩ := p
    by_cases hp : a = k
    · have hd : (d == a) = false := by simp [hp, h]
      have hdrop : (a != k) = false := by simp [hp]
      simp [List.filter_cons, hdrop, List.lookup, hd, ih]
    · have hkeep : (a != k) = true := by simp [hp]
      simp only [List.filter_cons, hkeep, if_true, List.lookup]
      cases hdq : (d == a) <;> simp [ih]

theorem lookup_insertCoord_self (m : List (String × Int × Int))
    (k : String) (v : Int × Int) :
    List.lookup k (insertCoord m k v) = some v := by
  simp [insertCoord, List.lookup]

theorem lookup_insertCoord_ne (m : List (String × Int × Int))
    (k : String) (v : Int × Int) {d : String} (h : d ≠ k) :
    List.lookup d (insertCoord m k v) = List.lookup d m := by
  have hd : (d == k) = false := by simp [h]
  simp [insertCoord, List.lookup, hd, lookup_filter_ne h]

theorem groundLoop_lookup_not_mem (ground : String → Nat → Option (Int × Int))
    (fc : List (Int × Int)) {desc : String} :
    ∀ (ds : List String) (m : List (String × Int × Int)), desc ∉ ds →
      List.lookup desc (groundLoop ground fc ds m).1 = List.lookup desc m := by
  intro ds
  induction ds with
  | nil => intro m _; simp [groundLoop]
  | cons d dt ih =>
    intro m h
    simp only [List.mem_cons, not_or] at h
    simp only [groundLoop]
    cases h1 : (groundOneDesc ground fc d).1 with
    | none => exact ih _ h.2
    | some c =>
      show List.lookup desc (groundLoop ground fc dt (insertCoord m d c)).1
        = List.lookup desc m
      rw [ih _ h.2]
      exact lookup_insertCoord_ne _ _ _ h.1

theorem groundLoop_lookup_fail (ground : String → Nat → Option (Int × Int))
    (fc : List (Int × Int)) {desc : String}
    (hfail : ∀ k, k < 3 → ground desc k = none) :
    ∀ (ds : List String) (m : List (String × Int × Int)),
      List.lookup desc (groundLoop ground fc ds m).1 = List.lookup desc m := by
  intro ds
  induction ds with
  | nil => intro m; simp [groundLoop]
  | cons d dt ih =>
    intro m
    simp only [groundLoop]
    by_cases hd : d = desc
    · subst hd
      have hone : (groundOneDesc ground fc d).1 = none := by
        rw [groundOneDesc_fail fc hfail]
      rw [hone]
      exact ih m
    · cases h1 : (groundOneDesc ground fc d).1 with
      | none => exact ih m
      | some c =>
        show List.lookup desc (groundLoop ground fc dt (insertCoord m d c)).1
          = List.lookup desc m
        rw [ih (insertCoord m d c)]
        exact lookup_insertCoord_ne _ _ _ (fun hx => hd hx.symm)

theorem groundLoop_lookup_succ (ground : String → Nat → Option (Int × Int))
    (fc : List (Int × Int)) {desc : String} {c : Int × Int}
    (hsucc : (groundOneDesc ground fc desc).1 = some c) :
    ∀ (ds : List String) (m : List (String × Int × Int)), ds.count desc = 1 →
      List.lookup desc (groundLoop ground fc ds m).1 = some c := by
  intro ds
  induction ds with
  | nil => intro m h; simp at h
  | cons d dt ih =>
    intro m h
    simp only [groundLoop]
    by_cases hd : d = desc
    · subst hd
      have hdt : d ∉ dt := by
        rw [List.count_cons_self] at h
        exact List.count_eq_zero.mp (by omega)
      rw [hsucc, groundLoop_lookup_not_mem ground fc dt _ hdt]
      exact lookup_insertCoord_self _ _ _
    · have hdt : dt.count desc = 1 := by
        rw [List.count_cons_of_ne (fun hx => hd hx.symm)] at h
        exact h
      cases h1 : (groundOneDesc ground fc d).1 with
      | none => exact ih _ hdt
      | some c2 => exact ih _ hdt

theorem groundLoop_mem_instruction (ground : String → Nat → Option (Int × Int))
    (fc : List (Int × Int)) :
    ∀ (ds : List String) (m : List (String × Int × Int)) (call : GroundCall),
      call ∈ (groundLoop ground fc ds m).2 →
      call.instruction = enhancedInstruction call.desc fc call.attempt := by
  intro ds
  induction ds with
  | nil => intro m call h; simp [groundLoop] at h
  | cons d dt ih =>
    intro m call h
    simp only [groundLoop, List.mem_append] at h
    rcases h with h | h
    · obtain ⟨hdesc, hinstr⟩ := groundAttempts_mem ground fc d 3 0 call h
      rw [hinstr, hdesc]
    · exact ih _ call h

end ComposedGrounded

/-! ## Reduction of `predict_step` to its grounding phase -/

theorem predict_step_ground_phase
    (model : String) (messages : List Message) (handlerPresent : Bool)
    (screenshotOutcome : Option String) (toCompletion : List Message → List CMsg)
    (elementDescriptions : List String)
    (ground : String → Nat → Option (Int × Int))
    (desc2xy : List (String × Int × Int)) (lastBeforeImage : Option String)
    (gt : String × String)
    (hparse : parseComposedModel model = Except.ok gt)
    (himg : truthy (effectiveLastImage messages handlerPresent screenshotOutcome) = true)
    (hdescs : elementDescriptions.isEmpty = false) :
    (predict_step model messages handlerPresent screenshotOutcome toCompletion
        elementDescriptions true ground desc2xy lastBeforeImage).1
      = Except.ok
          ⟨(addImagesToLastUserMessage messages (toCompletion messages) lastBeforeImage
              (effectiveLastImage messages handlerPresent screenshotOutcome)).1,
            (ComposedGrounded.groundLoop ground
              (ComposedGrounded.get_failed_coordinates messages)
              elementDescriptions desc2xy).2,
            (ComposedGrounded.groundLoop ground
              (ComposedGrounded.get_failed_coordinates messages)
              elementDescriptions desc2xy).1,
            (addImagesToLastUserMessage messages (toCompletion messages) lastBeforeImage
              (effectiveLastImage messages handlerPresent screenshotOutcome)).2⟩ := by
  simp [predict_step, hparse, himg, hdescs]

/-! ## Claims about the grounding resolution pass -/

/-- A one-message history holding a user screenshot, used to instantiate the
resolution-pass claims on concrete inputs. -/
def sampleMessages : List Message :=
  [⟨some "user", MsgContent.list [imageItem "i"], none, MsgOutput.noOutput, none⟩]

/-- C1: in one resolution pass of `predict_step`, a description the
grounding agent fails to resolve on every attempt is ground-attempted
exactly 3 times, no more, and the `desc2xy` cache keeps exactly its previous
binding for it (in particular the description stays absent and unresolved);
if some attempt `k` is the first to succeed, retrying stops immediately
(`k + 1` calls) and the returned coordinate is stored in `desc2xy` under the
literal description string. -/
theorem c1_grounding_retry_bound
    (model : String) (messages : List Message) (handlerPresent : Bool)
    (screenshotOutcome : Option String) (toCompletion : List Message → List CMsg)
    (elementDescriptions : List String)
    (ground : String → Nat → Option (Int × Int))
    (desc2xy : List (String × Int × Int)) (lastBeforeImage : Option String)
    (gt : String × String) (desc : String) (r : PredictStepResult)
    (hparse : parseComposedModel model = Except.ok gt)
    (himg : truthy (effectiveLastImage messages handlerPresent screenshotOutcome) = true)
    (hcount : elementDescriptions.count desc = 1)
    (hr : (predict_step model messages handlerPresent screenshotOutcome toCompletion
        elementDescriptions true ground desc2xy lastBeforeImage).1 = Except.ok r) :
    ((∀ k, k < 3 → ground desc k = none) →
        ComposedGrounded.callsFor desc r.groundCalls = 3
        ∧ List.lookup desc r.desc2xyOut = List.lookup desc desc2xy)
    ∧ (∀ k c, k < 3 → (∀ j, j < k → ground desc j = none) → ground desc k = some c →
        ComposedGrounded.callsFor desc r.groundCalls = k + 1
        ∧ List.lookup desc r.desc2xyOut = some c) := by
  have hmem : desc ∈ elementDescriptions := by
    by_contra hm
    rw [List.count_eq_zero.mpr hm] at hcount
    cases hcount
  have hdescs : elementDescriptions.isEmpty = false := by
    cases elementDescriptions with
    | nil => cases hmem
    | cons a l => rfl
  rw [predict_step_ground_phase model messages handlerPresent screenshotOutcome
    toCompletion elementDescriptions ground desc2xy lastBeforeImage gt
    hparse himg hdescs] at hr
  injection hr with hr
  subst hr
  dsimp only
  constructor
  · intro hfail
    constructor
    · rw [ComposedGrounded.groundLoop_callsFor, hcount,
        ComposedGrounded.groundOneDesc_fail
          (ComposedGrounded.get_failed_coordinates messages) hfail]
      rfl
    · exact ComposedGrounded.groundLoop_lookup_fail ground _ hfail
        elementDescriptions desc2xy
  · intro k c hk hmin hsucc
    obtain ⟨h1, hlen⟩ := ComposedGrounded.groundOneDesc_succ
      (ComposedGrounded.get_failed_coordinates messages) hk hmin hsucc
    constructor
    · rw [ComposedGrounded.groundLoop_callsFor, hcount, hlen, Nat.one_mul]
    · exact ComposedGrounded.groundLoop_lookup_succ ground _ h1
        elementDescriptions desc2xy hcount

/-- Witness for C1: a description failing all three attempts, and a
description succeeding on the second attempt, on concrete inputs. -/
theorem c1_grounding_retry_bound_witness :
    (ComposedGrounded.callsFor "btn"
        [⟨"btn", 0, "btn", none⟩, ⟨"btn", 1, "btn", none⟩,
         ⟨"btn", 2, "btn", none⟩] = 3
      ∧ List.lookup "btn" ([] : List (String × Int × Int))
          = List.lookup "btn" ([] : List (String × Int × Int)))
    ∧ (ComposedGrounded.callsFor "btn"
        [⟨"btn", 0, "btn", none⟩, ⟨"btn", 1, "btn", some (7, 8)⟩] = 1 + 1
      ∧ List.lookup "btn" [("btn", ((7 : Int), (8 : Int)))] = some (7, 8)) := by
  constructor
  · exact (c1_grounding_retry_bound "g+t" sampleMessages false none (fun _ => [])
      ["btn"] (fun _ _ => none) [] none ("g", "t") "btn"
      ⟨[], [⟨"btn", 0, "btn", none⟩, ⟨"btn", 1, "btn", none⟩,
            ⟨"btn", 2, "btn", none⟩], [], none⟩
      rfl rfl rfl rfl).1 (fun _ _ => rfl)
  · exact (c1_grounding_retry_bound "g+t" sampleMessages false none (fun _ => [])
      ["btn"] (fun _ k => if k = 0 then none else some (7, 8)) [] none
      ("g", "t") "btn"
      ⟨[], [⟨"btn", 0, "btn", none⟩, ⟨"btn", 1, "btn", some (7, 8)⟩],
       [("btn", (7, 8))], none⟩
      rfl rfl rfl rfl).2 1 (7, 8) (by omega)
      (fun j hj => by interval_cases j; rfl) rfl

/-- C2 (counterexample): with `"D"` already resolved in `desc2xy` at
`(1, 2)`, a `predict_step` whose thinking output references `"D"` on the
same image still invokes the grounding agent for `"D"` (one recorded call),
and the cache entry is overwritten with the fresh result `(5, 6)` instead of
the first call's coordinate being reused. -/
theorem c2_counterexample_cached_desc_regrounded :
    List.lookup "D" [("D", ((1 : Int), (2 : Int)))] = some (1, 2)
    ∧ (predict_step "g+t" sampleMessages false none (fun _ => []) ["D"] true
        (fun _ _ => some (5, 6)) [("D", (1, 2))] none).1.map
        (fun r => (ComposedGrounded.callsFor "D" r.groundCalls,
                   List.lookup "D" r.desc2xyOut))
      = Except.ok (1, some (5, 6)) :=
  ⟨rfl, rfl⟩

/-- C2 (amended): `predict_step` invokes the grounding agent for every
description extracted from the thinking output, whether or not it is already
resolved in `desc2xy`; a successful re-resolution overwrites the cache
entry, and only when every retry fails is the earlier coordinate retained. -/
theorem c2_amended_cache_not_consulted
    (model : String) (messages : List Message) (handlerPresent : Bool)
    (screenshotOutcome : Option String) (toCompletion : List Message → List CMsg)
    (elementDescriptions : List String)
    (ground : String → Nat → Option (Int × Int))
    (desc2xy : List (String × Int × Int)) (lastBeforeImage : Option String)
    (gt : String × String) (desc : String) (r : PredictStepResult)
    (hparse : parseComposedModel model = Except.ok gt)
    (himg : truthy (effectiveLastImage messages handlerPresent screenshotOutcome) = true)
    (hmem : desc ∈ elementDescriptions)
    (hr : (predict_step model messages handlerPresent screenshotOutcome toCompletion
        elementDescriptions true ground desc2xy lastBeforeImage).1 = Except.ok r) :
    1 ≤ ComposedGrounded.callsFor desc r.groundCalls
    ∧ ((∀ k, k < 3 → ground desc k = none) →
        List.lookup desc r.desc2xyOut = List.lookup desc desc2xy) := by
  have hdescs : elementDescriptions.isEmpty = false := by
    cases elementDescriptions with
    | nil => cases hmem
    | cons a l => rfl
  rw [predict_step_ground_phase model messages handlerPresent screenshotOutcome
    toCompletion elementDescriptions ground desc2xy lastBeforeImage gt
    hparse himg hdescs] at hr
  injection hr with hr
  subst hr
  dsimp only
  constructor
  · rw [ComposedGrounded.groundLoop_callsFor]
    have hcount : 1 ≤ elementDescriptions.count desc := by
      rcases Nat.eq_zero_or_pos (elementDescriptions.count desc) with h0 | h1
      · exact absurd hmem (List.count_eq_zero.mp h0)
      · exact h1
    have hlen := ComposedGrounded.groundOneDesc_trace_pos ground
      (ComposedGrounded.get_failed_coordinates messages) desc
    calc 1 = 1 * 1 := rfl
    _ ≤ elementDescriptions.count desc
          * (ComposedGrounded.groundOneDesc ground
              (ComposedGrounded.get_failed_coordinates messages) desc).2.length :=
      Nat.mul_le_mul hcount hlen
  · intro hfail
    exact ComposedGrounded.groundLoop_lookup_fail ground _ hfail
      elementDescriptions desc2xy

/-- Witness for the amended C2 on concrete inputs: a cached description is
ground-called again; a cached description whose retries all fail keeps its
cached coordinate. -/
theorem c2_amended_cache_not_consulted_witness :
    1 ≤ ComposedGrounded.callsFor "D"
        [⟨"D", 0, "D", some ((5 : Int), (6 : Int))⟩]
    ∧ List.lookup "D"
        [("D", ((1 : Int), (2 : Int)))]
      = List.lookup "D" [("D", ((1 : Int), (2 : Int)))] := by
  constructor
  · exact (c2_amended_cache_not_consulted "g+t" sampleMessages false none
      (fun _ => []) ["D"] (fun _ _ => some (5, 6)) [("D", (1, 2))] none
      ("g", "t") "D"
      ⟨[], [⟨"D", 0, "D", some (5, 6)⟩], [("D", (5, 6))], none⟩
      rfl rfl (by decide) rfl).1
  · exact (c2_amended_cache_not_consulted "g+t" sampleMessages false none
      (fun _ => []) ["D"] (fun _ _ => none) [("D", (1, 2))] none
      ("g", "t") "D"
      ⟨[], [⟨"D", 0, "D", none⟩, ⟨"D", 1, "D", none⟩, ⟨"D", 2, "D", none⟩],
       [("D", (1, 2))], none⟩
      rfl rfl (by decide) rfl).2 (fun _ _ => rfl)

/-- C6: every grounding call recorded by `predict_step` carries the
instruction built by `enhancedInstruction` over the failed coordinates
extracted from the current history: the literal description on the first
attempt and whenever the failed-coordinate list is empty, and the
description augmented with the avoid-these-coordinates clause listing the
failed `(x, y)` pairs on any later attempt when the list is non-empty. -/
theorem c6_instruction_augmentation
    (model : String) (messages : List Message) (handlerPresent : Bool)
    (screenshotOutcome : Option String) (toCompletion : List Message → List CMsg)
    (elementDescriptions : List String)
    (ground : String → Nat → Option (Int × Int))
    (desc2xy : List (String × Int × Int)) (lastBeforeImage : Option String)
    (gt : String × String) (r : PredictStepResult)
    (call : ComposedGrounded.GroundCall)
    (hparse : parseComposedModel model = Except.ok gt)
    (himg : truthy (effectiveLastImage messages handlerPresent screenshotOutcome) = true)
    (hdescs : elementDescriptions.isEmpty = false)
    (hr : (predict_step model messages handlerPresent screenshotOutcome toCompletion
        elementDescriptions true ground desc2xy lastBeforeImage).1 = Except.ok r)
    (hcall : call ∈ r.groundCalls) :
    call.instruction = ComposedGrounded.enhancedInstruction call.desc
        (ComposedGrounded.get_failed_coordinates messages) call.attempt
    ∧ ((call.attempt = 0 ∨ ComposedGrounded.get_failed_coordinates messages = []) →
        call.instruction = call.desc)
    ∧ (0 < call.attempt → ComposedGrounded.get_failed_coordinates messages ≠ [] →
        call.instruction = call.desc
          ++ ". Avoid these previously failed coordinates: "
          ++ ComposedGrounded.formatCoords
              (ComposedGrounded.get_failed_coordinates messages)) := by
  rw [predict_step_ground_phase model messages handlerPresent screenshotOutcome
    toCompletion elementDescriptions ground desc2xy lastBeforeImage gt
    hparse himg hdescs] at hr
  injection hr with hr
  subst hr
  dsimp only at hcall
  have heq := ComposedGrounded.groundLoop_mem_instruction ground
    (ComposedGrounded.get_failed_coordinates messages)
    elementDescriptions desc2xy call hcall
  refine ⟨heq, ?_, ?_⟩
  · intro h
    rw [heq, ComposedGrounded.enhancedInstruction]
    rcases h with h | h
    · simp [h]
    · simp [h]
  · intro h1 h2
    rw [heq, ComposedGrounded.enhancedInstruction]
    have he : (ComposedGrounded.get_failed_coordinates messages).isEmpty = false := by
      cases hc : ComposedGrounded.get_failed_coordinates messages with
      | nil => exact absurd hc h2
      | cons a l => rfl
    simp [he, h1]

/-- A prior `computer_call` history item at coordinates `(3, 4)`. -/
def sampleComputerCallMsg : Message :=
  ⟨none, MsgContent.noContent, some "computer_call", MsgOutput.noOutput,
   some ⟨some 3, some 4⟩⟩

/-- Witness for C6 on a concrete history holding one prior `computer_call`
at `(3, 4)`: the first attempt uses the literal description, the retry uses
the augmented instruction. -/
theorem c6_instruction_augmentation_witness :
    ((⟨"D", 1, "D. Avoid these previously failed coordinates: (3, 4)",
        none⟩ : ComposedGrounded.GroundCall).instruction
      = ComposedGrounded.enhancedInstruction "D" [((3 : Int), (4 : Int))] 1)
    ∧ ((⟨"D", 1, "D. Avoid these previously failed coordinates: (3, 4)",
        none⟩ : ComposedGrounded.GroundCall).instruction
      = "D" ++ ". Avoid these previously failed coordinates: "
          ++ ComposedGrounded.formatCoords [((3 : Int), (4 : Int))]) := by
  have happ := c6_instruction_augmentation "g+t"
    (sampleMessages ++ [sampleComputerCallMsg])
    false none (fun _ => []) ["D"] (fun _ _ => none) [] none ("g", "t")
    ⟨[], [⟨"D", 0, "D", none⟩,
          ⟨"D", 1, "D. Avoid these previously failed coordinates: (3, 4)", none⟩,
          ⟨"D", 2, "D. Avoid these previously failed coordinates: (3, 4)", none⟩],
     [], none⟩
    ⟨"D", 1, "D. Avoid these previously failed coordinates: (3, 4)", none⟩
    rfl rfl rfl rfl (by decide)
  exact ⟨happ.1, happ.2.2 (by decide) (by decide)⟩

/-! ## Claims about composed-model parsing and prompt construction -/

/-- C5: a composed model identifier without a `'+'` separator makes
`predict_step` (and `predict_click`) fail immediately with the configuration
error, before any screenshot, history rewriting, model call or grounding
call (the effect trace is empty) and without retrying; an identifier
containing `'+'` parses, and the parse splits on the first `'+'`: the
grounding model is the plus-free prefix, the thinking model the remainder. -/
theorem c5_composed_model_parse
    (model : String) (messages : List Message) (handlerPresent : Bool)
    (screenshotOutcome : Option String) (toCompletion : List Message → List CMsg)
    (elementDescriptions : List String) (agentFound : Bool)
    (ground : String → Nat → Option (Int × Int))
    (desc2xy : List (String × Int × Int)) (lastBeforeImage : Option String)
    (groundResult : Option (Int × Int)) :
    ('+' ∉ model.data →
        predict_step model messages handlerPresent screenshotOutcome toCompletion
          elementDescriptions agentFound ground desc2xy lastBeforeImage
          = (Except.error (), [])
        ∧ predict_click model agentFound groundResult = Except.error ())
    ∧ ('+' ∈ model.data → (parseComposedModel model).isOk = true)
    ∧ (∀ g t, parseComposedModel model = Except.ok (g, t) →
        model.data = g.data ++ '+' :: t.data ∧ '+' ∉ g.data) := by
  refine ⟨?_, ?_, ?_⟩
  · intro h
    have hp : parseComposedModel model = Except.error () := by
      simp only [parseComposedModel, splitFirstChar_eq_none h]
    exact ⟨by simp [predict_step, hp], by simp [predict_click, hp]⟩
  · intro h
    have hsome := splitFirstChar_isSome (c := '+') h
    simp only [parseComposedModel]
    cases hs : splitFirstChar '+' model.data with
    | none => rw [hs] at hsome; simp at hsome
    | some p => rfl
  · intro g t hgt
    simp only [parseComposedModel] at hgt
    cases hs : splitFirstChar '+' model.data with
    | none => rw [hs] at hgt; cases hgt
    | some p =>
      rw [hs] at hgt
      injection hgt with hgt
      have hg : String.mk p.1 = g := congrArg Prod.fst hgt
      have ht : String.mk p.2 = t := congrArg Prod.snd hgt
      subst hg
      subst ht
      obtain ⟨h1, h2⟩ := splitFirstChar_spec hs
      exact ⟨h1, h2⟩

/-- Witness for C5: a plus-free identifier is rejected with an empty effect
trace; `"a+b+c"` parses and splits at the first `'+'`. -/
theorem c5_composed_model_parse_witness :
    (predict_step "gemini" [] false none (fun _ => []) [] true (fun _ _ => none)
        [] none = (Except.error (), [])
      ∧ predict_click "gemini" true none = Except.error ())
    ∧ (parseComposedModel "a+b+c").isOk = true
    ∧ ("a+b+c".data = "a".data ++ '+' :: "b+c".data ∧ '+' ∉ "a".data) := by
  refine ⟨(c5_composed_model_parse "gemini" [] false none (fun _ => []) [] true
      (fun _ _ => none) [] none none).1 (by decide),
    (c5_composed_model_parse "a+b+c" [] false none (fun _ => []) [] true
      (fun _ _ => none) [] none none).2.1 (by decide),
    (c5_composed_model_parse "a+b+c" [] false none (fun _ => []) [] true
      (fun _ _ => none) [] none none).2.2 "a" "b+c" rfl⟩

theorem imagesOf_append (a b : List CPart) :
    imagesOf (a ++ b) = imagesOf a ++ imagesOf b := by
  simp [imagesOf, List.filterMap_append]

theorem imagesOf_stripped (l : List CPart) :
    imagesOf (l.filter (fun p => !p.isImage)) = [] := by
  induction l with
  | nil => rfl
  | cons p ps ih =>
    cases p <;> simp [imagesOf, CPart.isImage, List.filter_cons] at ih ⊢ <;>
      simpa [imagesOf] using ih

theorem lastContentParts_concat (l : List CMsg) (role : Option String)
    (parts : List CPart) :
    lastContentParts (l ++ [⟨role, CContent.list parts⟩]) = some parts := by
  simp [lastContentParts, List.getLast?_concat]

/-- C7: in the thinking-model prompt, when the supplied history holds no
tool results (first turn), the last user message receives exactly one image,
the current screenshot; when the history holds tool results and both the
stored before-image and a current image exist, it receives exactly two
images, the stored before-image then the current one, each immediately
preceded by the explicit BEFORE/AFTER text label; in both cases the current
image becomes the stored before-image for the next invocation. -/
theorem c7_prompt_image_construction
    (messages : List Message) (cms : List CMsg)
    (lastBefore lastImage : Option String) (last : CMsg) (l0 : List CPart)
    (hlast : cms.getLast? = some last)
    (hrole : last.role = some "user")
    (hcontent : normalizeContent last.content = some l0) :
    (hasToolResults messages = false → truthy lastImage = true →
        lastContentParts (addImagesToLastUserMessage messages cms lastBefore lastImage).1
          = some (l0.filter (fun p => !p.isImage)
              ++ [CPart.image (pngUrl (lastImage.getD ""))])
        ∧ imagesOf (l0.filter (fun p => !p.isImage)
              ++ [CPart.image (pngUrl (lastImage.getD ""))])
          = [pngUrl (lastImage.getD "")]
        ∧ (addImagesToLastUserMessage messages cms lastBefore lastImage).2 = lastImage)
    ∧ (hasToolResults messages = true → truthy lastBefore = true →
        truthy lastImage = true →
        lastContentParts (addImagesToLastUserMessage messages cms lastBefore lastImage).1
          = some (l0.filter (fun p => !p.isImage)
              ++ [CPart.text beforeLabel,
                  CPart.image (pngUrl (lastBefore.getD "")),
                  CPart.text afterLabel,
                  CPart.image (pngUrl (lastImage.getD ""))])
        ∧ imagesOf (l0.filter (fun p => !p.isImage)
              ++ [CPart.text beforeLabel,
                  CPart.image (pngUrl (lastBefore.getD "")),
                  CPart.text afterLabel,
                  CPart.image (pngUrl (lastImage.getD ""))])
          = [pngUrl (lastBefore.getD ""), pngUrl (lastImage.getD "")]
        ∧ (addImagesToLastUserMessage messages cms lastBefore lastImage).2 = lastImage) := by
  have hrole' : (last.role == some "user") = true := by simp [hrole]
  constructor
  · intro htr himg
    have hres : addImagesToLastUserMessage messages cms lastBefore lastImage
        = (cms.dropLast ++ [⟨last.role, CContent.list
            (l0.filter (fun p => !p.isImage)
              ++ [CPart.image (pngUrl (lastImage.getD ""))])⟩], lastImage) := by
      simp [addImagesToLastUserMessage, hlast, hrole', hcontent, htr, himg]
    rw [hres]
    refine ⟨lastContentParts_concat _ _ _, ?_, rfl⟩
    rw [imagesOf_append, imagesOf_stripped]
    rfl
  · intro htr hbefore himg
    have hres : addImagesToLastUserMessage messages cms lastBefore lastImage
        = (cms.dropLast ++ [⟨last.role, CContent.list
            (l0.filter (fun p => !p.isImage)
              ++ [CPart.text beforeLabel,
                  CPart.image (pngUrl (lastBefore.getD "")),
                  CPart.text afterLabel,
                  CPart.image (pngUrl (lastImage.getD ""))])⟩], lastImage) := by
      simp [addImagesToLastUserMessage, hlast, hrole', hcontent, htr, hbefore, himg]
    rw [hres]
    refine ⟨lastContentParts_concat _ _ _, ?_, rfl⟩
    rw [imagesOf_append, imagesOf_stripped]
    rfl

/-- A `function_call_output` history item whose output list holds only a
text item (no image). -/
def fcoTextOnly : Message :=
  ⟨none, MsgContent.noContent, some "function_call_output",
   MsgOutput.list [textItem], none⟩

/-- Witness for C7 at concrete inputs: a first-turn prompt gets the single
current screenshot; a later prompt with both images gets the labelled
before/after pair, and the current image becomes the next before-image. -/
theorem c7_prompt_image_construction_witness :
    (lastContentParts (addImagesToLastUserMessage []
          [⟨some "user", CContent.str "hi"⟩] none (some "cur")).1
        = some ([CPart.text "hi"].filter (fun p => !p.isImage)
            ++ [CPart.image (pngUrl ((some "cur").getD ""))])
      ∧ imagesOf ([CPart.text "hi"].filter (fun p => !p.isImage)
            ++ [CPart.image (pngUrl ((some "cur").getD ""))])
        = [pngUrl ((some "cur").getD "")]
      ∧ (addImagesToLastUserMessage []
          [⟨some "user", CContent.str "hi"⟩] none (some "cur")).2 = some "cur")
    ∧ (lastContentParts (addImagesToLastUserMessage [fcoTextOnly]
          [⟨some "user", CContent.str "hi"⟩] (some "bef") (some "cur")).1
        = some ([CPart.text "hi"].filter (fun p => !p.isImage)
            ++ [CPart.text beforeLabel,
                CPart.image (pngUrl ((some "bef").getD "")),
                CPart.text afterLabel,
                CPart.image (pngUrl ((some "cur").getD ""))])
      ∧ imagesOf ([CPart.text "hi"].filter (fun p => !p.isImage)
            ++ [CPart.text beforeLabel,
                CPart.image (pngUrl ((some "bef").getD "")),
                CPart.text afterLabel,
                CPart.image (pngUrl ((some "cur").getD ""))])
        = [pngUrl ((some "bef").getD ""), pngUrl ((some "cur").getD "")]
      ∧ (addImagesToLastUserMessage [fcoTextOnly]
          [⟨some "user", CContent.str "hi"⟩] (some "bef") (some "cur")).2
        = some "cur") := by
  constructor
  · exact (c7_prompt_image_construction [] [⟨some "user", CContent.str "hi"⟩]
      none (some "cur") ⟨some "user", CContent.str "hi"⟩ [CPart.text "hi"]
      rfl rfl rfl).1 rfl rfl
  · exact (c7_prompt_image_construction [fcoTextOnly]
      [⟨some "user", CContent.str "hi"⟩] (some "bef") (some "cur")
      ⟨some "user", CContent.str "hi"⟩ [CPart.text "hi"]
      rfl rfl rfl).2 rfl rfl rfl

/-! ## Lemmas about the CoAct-1 delegation loop -/

namespace CoactExample

/-- An Orchestrator turn that delegates to one of the two sub-agents with
arguments that parse. -/
def OrchTurn.delegates : OrchTurn → Prop
  | OrchTurn.noCall => False
  | OrchTurn.call name args =>
    (name = "delegate_to_programmer" ∨ name = "delegate_to_gui_operator")
    ∧ args ≠ OrchArgs.strBad

/-- Whether a round delegated to a sub-agent. -/
def RoundAction.isDelegated : RoundAction → Bool
  | RoundAction.delegated _ => true
  | _ => false

theorem argSubtask_ok {args : OrchArgs} (h : args ≠ OrchArgs.strBad) :
    ∃ s, argSubtask args = Except.ok s := by
  cases args with
  | dict s => exact ⟨s, rfl⟩
  | strOk s => exact ⟨s, rfl⟩
  | strBad => exact absurd rfl h

theorem scanCoact_prompt (rest : List Message) (var : Option String) :
    scanCoact (promptMsg :: rest) var = scanCoact rest var := rfl

theorem scanCoact_delegation (name : String) (rest : List Message)
    (var : Option String) :
    scanCoact (delegationMsg name :: rest) var = scanCoact rest var := rfl

theorem scanCoact_userImage (b : String) (rest : List Message)
    (var : Option String) :
    scanCoact (userMsgWithImage b :: rest) var = Except.ok (some b) := by
  simp [scanCoact, userMsgWithImage, Message.contentList, userScan, textItem,
    imageItem, pngStarts_pngUrl, b64Payload_pngUrl]

theorem scanCoact_fcoImage (b : String) (hb : b ≠ "") (rest : List Message)
    (var : Option String) :
    scanCoact (fcoMsg (some b) :: rest) var = Except.ok (some b) := by
  have ht : truthy (some b) = true := by simp [truthy, hb]
  simp [scanCoact, fcoMsg, ht, Message.contentList, Message.outputDict,
    Message.outputList, fcoScan, textItem, imageItem, pngStarts_pngUrl,
    b64Payload_pngUrl]

theorem get_last_concat (hist : List Message) (m : Message) :
    get_last_image_b64 (hist ++ [m]) = scanCoact (m :: hist.reverse) none := by
  rw [get_last_image_b64, List.reverse_append]
  rfl

theorem get_last_two_concat (hist : List Message) (m1 m2 : Message) :
    get_last_image_b64 ((hist ++ [m1]) ++ [m2])
      = scanCoact (m2 :: m1 :: hist.reverse) none := by
  rw [get_last_image_b64, List.reverse_append, List.reverse_append]
  rfl

theorem get_last_three_concat (hist : List Message) (m1 m2 m3 : Message) :
    get_last_image_b64 (((hist ++ [m1]) ++ [m2]) ++ [m3])
      = scanCoact (m3 :: m2 :: m1 :: hist.reverse) none := by
  rw [get_last_image_b64, List.reverse_append, List.reverse_append,
    List.reverse_append]
  rfl

/-- The delegating rounds of `runAux`: when the Orchestrator delegates on
every turn with benign (empty-output) sub-agents and a non-empty seed
screenshot, every remaining round runs, delegates, and the loop ends at the
step limit with no exception. -/
theorem runAux_all_delegate (orch : Nat → OrchTurn) (subOut : Nat → List Message)
    (horch : ∀ i, (orch i).delegates) (hsub : ∀ i, subOut i = [])
    (b : String) (hb : b ≠ "") :
    ∀ (fuel i : Nat) (hist : List Message),
      get_last_image_b64 hist = Except.ok (some b) →
      (runAux orch subOut i fuel hist).map
          (fun p => (p.1.length, p.2, p.1.all RoundAction.isDelegated))
        = Except.ok (fuel, ExitKind.stepLimit, true) := by
  intro fuel
  induction fuel with
  | zero => intro i hist _; rfl
  | succ n ih =>
    intro i hist hinv
    have hd := horch i
    cases hco : orch i with
    | noCall => rw [hco] at hd; cases hd
    | call name args =>
      rw [hco] at hd
      obtain ⟨hname, hargs⟩ := hd
      obtain ⟨s, hs⟩ := argSubtask_ok hargs
      have htruthy : truthy (some b) = true := by simp [truthy, hb]
      have hh2 : get_last_image_b64 ((hist ++ [promptMsg]) ++ [delegationMsg name])
          = Except.ok (some b) := by
        rw [get_last_two_concat, scanCoact_delegation, scanCoact_prompt]
        exact hinv
      have hseed : get_last_image_b64 [userMsgWithImage b] = Except.ok (some b) :=
        scanCoact_userImage b [] none
      have hh3 : get_last_image_b64
          ((((hist ++ [promptMsg]) ++ [delegationMsg name]) ++ [fcoMsg (some b)]))
          = Except.ok (some b) := by
        rw [get_last_three_concat]
        exact scanCoact_fcoImage b hb _ _
      have hrec := ih (i + 1)
        ((((hist ++ [promptMsg]) ++ [delegationMsg name]) ++ [fcoMsg (some b)])) hh3
      have htail : ∀ ag : Agent,
          ((match runAux orch subOut (i + 1) n
              ((((hist ++ [promptMsg]) ++ [delegationMsg name]) ++ [fcoMsg (some b)])) with
            | Except.error e => Except.error e
            | Except.ok r => Except.ok (RoundAction.delegated ag :: r.1, r.2)) :
              Except PyErr (List RoundAction × ExitKind)).map
            (fun p => (p.1.length, p.2, p.1.all RoundAction.isDelegated))
          = Except.ok (n + 1, ExitKind.stepLimit, true) := by
        intro ag
        cases hq : runAux orch subOut (i + 1) n
            ((((hist ++ [promptMsg]) ++ [delegationMsg name]) ++ [fcoMsg (some b)])) with
        | error e => rw [hq] at hrec; simp [Except.map] at hrec
        | ok p =>
          rw [hq] at hrec
          simp only [Except.map] at hrec ⊢
          injection hrec with hrec
          have hlen : p.1.length = n := congrArg Prod.fst hrec
          have hexit : p.2 = ExitKind.stepLimit :=
            congrArg (fun q => q.2.1) hrec
          have hall : p.1.all RoundAction.isDelegated = true :=
            congrArg (fun q => q.2.2) hrec
          simp [List.all_cons, RoundAction.isDelegated, hlen, hexit, hall]
      rcases hname with hn | hn
      · have e1 : (name == "task_completed") = false := by simp [hn]
        have e2 : (name == "delegate_to_programmer") = true := by simp [hn]
        simp only [runAux, hco, hs, e1, e2, hh2, htruthy, hsub i,
          List.append_nil, Option.getD_some, hseed, if_true, if_false,
          Bool.false_eq_true]
        exact htail Agent.programmer
      · have e1 : (name == "task_completed") = false := by simp [hn]
        have e2 : (name == "delegate_to_programmer") = false := by simp [hn]
        have e3 : (name == "delegate_to_gui_operator") = true := by simp [hn]
        simp only [runAux, hco, hs, e1, e2, e3, hh2, htruthy, hsub i,
          List.append_nil, Option.getD_some, hseed, if_true, if_false,
          Bool.false_eq_true]
        exact htail Agent.guiOperator

end CoactExample

/-! ## Claims about the delegation controller -/

namespace CoactExample

/-- C3: with an Orchestrator that returns a delegation tool call on every
turn (and benign stub sub-agents), `CoAct1.run` performs exactly 10 planning
rounds, each of which delegates, and then stops at the step limit without
raising an error. -/
theorem c3_delegation_step_cap (orch : Nat → OrchTurn)
    (subOut : Nat → List Message) (initB64 : String)
    (horch : ∀ i, (orch i).delegates) (hsub : ∀ i, subOut i = [])
    (hinit : initB64 ≠ "") :
    (run orch subOut initB64).map
        (fun p => (p.1.length, p.2, p.1.all RoundAction.isDelegated))
      = Except.ok (10, ExitKind.stepLimit, true) := by
  have hinv : get_last_image_b64 [initialUserMsg initB64]
      = Except.ok (some initB64) := scanCoact_userImage initB64 [] none
  exact runAux_all_delegate orch subOut horch hsub initB64 hinit 10 0 _ hinv

/-- Witness for C3: an always-delegating Orchestrator stub runs exactly 10
rounds and stops at the step limit. -/
theorem c3_delegation_step_cap_witness :
    (run (fun _ => OrchTurn.call "delegate_to_programmer" (OrchArgs.dict "t"))
        (fun _ => []) "img").map
        (fun p => (p.1.length, p.2, p.1.all RoundAction.isDelegated))
      = Except.ok (10, ExitKind.stepLimit, true) :=
  c3_delegation_step_cap _ _ _
    (fun _ => ⟨Or.inl rfl, by decide⟩) (fun _ => rfl) (by decide)

/-- One `task_completed` round: the loop exits in DONE immediately, before
any sub-agent selection, sub-agent run or summarization. -/
theorem runAux_completed_step (orch : Nat → OrchTurn)
    (subOut : Nat → List Message) (i fuel : Nat) (hist : List Message)
    (args : OrchArgs) (s : String)
    (hturn : orch i = OrchTurn.call "task_completed" args)
    (hs : argSubtask args = Except.ok s) :
    runAux orch subOut i (fuel + 1) hist
      = Except.ok ([RoundAction.completed], ExitKind.done) := by
  simp [runAux, hturn, hs]

/-- One round with no tool call: the loop ends as a soft stop. -/
theorem runAux_noCall_step (orch : Nat → OrchTurn)
    (subOut : Nat → List Message) (i fuel : Nat) (hist : List Message)
    (hturn : orch i = OrchTurn.noCall) :
    runAux orch subOut i (fuel + 1) hist
      = Except.ok ([RoundAction.noCall], ExitKind.noDelegation) := by
  simp [runAux, hturn]

/-- One delegating round to the Programmer with a benign sub-agent: the
round appends the prompt, the delegation and the image-carrying tool result
to the history and continues. -/
theorem runAux_delegate_programmer_step (orch : Nat → OrchTurn)
    (subOut : Nat → List Message) (i fuel : Nat) (hist : List Message)
    (args : OrchArgs) (s : String) (b : String)
    (hturn : orch i = OrchTurn.call "delegate_to_programmer" args)
    (hs : argSubtask args = Except.ok s)
    (hh2 : get_last_image_b64
        ((hist ++ [promptMsg]) ++ [delegationMsg "delegate_to_programmer"])
      = Except.ok (some b))
    (hb : b ≠ "") (hsub : subOut i = []) :
    runAux orch subOut i (fuel + 1) hist
      = (runAux orch subOut (i + 1) fuel
            (((hist ++ [promptMsg]) ++ [delegationMsg "delegate_to_programmer"])
              ++ [fcoMsg (some b)])).map
          (fun p => (RoundAction.delegated Agent.programmer :: p.1, p.2)) := by
  have htruthy : truthy (some b) = true := by simp [truthy, hb]
  have hseed : get_last_image_b64 [userMsgWithImage b] = Except.ok (some b) :=
    scanCoact_userImage b [] none
  simp only [runAux, hturn, hs, hh2, htruthy, hsub, List.append_nil,
    Option.getD_some, hseed, if_true, if_false, Bool.false_eq_true]
  cases hq : runAux orch subOut (i + 1) fuel
      (((hist ++ [promptMsg]) ++ [delegationMsg "delegate_to_programmer"])
        ++ [fcoMsg (some b)]) with
  | error e => rfl
  | ok p => rfl

/-- One delegating round to the GUI Operator, as for the Programmer. -/
theorem runAux_delegate_gui_step (orch : Nat → OrchTurn)
    (subOut : Nat → List Message) (i fuel : Nat) (hist : List Message)
    (args : OrchArgs) (s : String) (b : String)
    (hturn : orch i = OrchTurn.call "delegate_to_gui_operator" args)
    (hs : argSubtask args = Except.ok s)
    (hh2 : get_last_image_b64
        ((hist ++ [promptMsg]) ++ [delegationMsg "delegate_to_gui_operator"])
      = Except.ok (some b))
    (hb : b ≠ "") (hsub : subOut i = []) :
    runAux orch subOut i (fuel + 1) hist
      = (runAux orch subOut (i + 1) fuel
            (((hist ++ [promptMsg]) ++ [delegationMsg "delegate_to_gui_operator"])
              ++ [fcoMsg (some b)])).map
          (fun p => (RoundAction.delegated Agent.guiOperator :: p.1, p.2)) := by
  have htruthy : truthy (some b) = true := by simp [truthy, hb]
  have hseed : get_last_image_b64 [userMsgWithImage b] = Except.ok (some b) :=
    scanCoact_userImage b [] none
  simp only [runAux, hturn, hs, hh2, htruthy, hsub, List.append_nil,
    Option.getD_some, hseed, if_true, if_false, Bool.false_eq_true]
  cases hq : runAux orch subOut (i + 1) fuel
      (((hist ++ [promptMsg]) ++ [delegationMsg "delegate_to_gui_operator"])
        ++ [fcoMsg (some b)]) with
  | error e => rfl
  | ok p => rfl

/-- C4: with an Orchestrator that delegates on turn 1 and returns
`task_completed` on turn 2, `CoAct1.run` performs exactly 2 planning rounds
and ends in the DONE state, the second round recording only the completion
(no sub-agent is selected once `task_completed` arrives); and a turn that
produces no tool call at all ends the loop as a soft stop, not an error. -/
theorem c4_done_on_task_completed (orch : Nat → OrchTurn)
    (subOut : Nat → List Message) (initB64 : String) (name : String)
    (args0 args1 : OrchArgs)
    (h0 : orch 0 = OrchTurn.call name args0)
    (hname : name = "delegate_to_programmer" ∨ name = "delegate_to_gui_operator")
    (hargs0 : args0 ≠ OrchArgs.strBad)
    (h1 : orch 1 = OrchTurn.call "task_completed" args1)
    (hargs1 : args1 ≠ OrchArgs.strBad)
    (hsub : subOut 0 = []) (hinit : initB64 ≠ "") :
    (run orch subOut initB64).map
        (fun p => (p.1.length, p.2, p.1.getLast?,
          (p.1.filter RoundAction.isDelegated).length))
      = Except.ok (2, ExitKind.done, some RoundAction.completed, 1)
    ∧ (∀ (orch2 : Nat → OrchTurn) (subOut2 : Nat → List Message) (b2 : String),
        orch2 0 = OrchTurn.noCall →
        run orch2 subOut2 b2
          = Except.ok ([RoundAction.noCall], ExitKind.noDelegation)) := by
  constructor
  · obtain ⟨s0, hs0⟩ := argSubtask_ok hargs0
    obtain ⟨s1, hs1⟩ := argSubtask_ok hargs1
    have hinv : get_last_image_b64 [initialUserMsg initB64]
        = Except.ok (some initB64) := scanCoact_userImage initB64 [] none
    rcases hname with hn | hn
    · subst hn
      have hh2 : get_last_image_b64
          (([initialUserMsg initB64] ++ [promptMsg])
            ++ [delegationMsg "delegate_to_programmer"])
          = Except.ok (some initB64) := by
        rw [get_last_two_concat, scanCoact_delegation, scanCoact_prompt]
        exact hinv
      have hstep : runAux orch subOut 0 10 [initialUserMsg initB64]
          = (runAux orch subOut 1 9
                ((([initialUserMsg initB64] ++ [promptMsg])
                  ++ [delegationMsg "delegate_to_programmer"])
                  ++ [fcoMsg (some initB64)])).map
              (fun p => (RoundAction.delegated Agent.programmer :: p.1, p.2)) :=
        runAux_delegate_programmer_step orch subOut 0 9 _ args0 s0 initB64
          h0 hs0 hh2 hinit hsub
      have hround1 : runAux orch subOut 1 9
          ((([initialUserMsg initB64] ++ [promptMsg])
            ++ [delegationMsg "delegate_to_programmer"])
            ++ [fcoMsg (some initB64)])
          = Except.ok ([RoundAction.completed], ExitKind.done) :=
        runAux_completed_step orch subOut 1 8 _ args1 s1 h1 hs1
      show (runAux orch subOut 0 10 [initialUserMsg initB64]).map
          (fun p => (p.1.length, p.2, p.1.getLast?,
            (p.1.filter RoundAction.isDelegated).length))
        = Except.ok (2, ExitKind.done, some RoundAction.completed, 1)
      rw [hstep, hround1]
      rfl
    · subst hn
      have hh2 : get_last_image_b64
          (([initialUserMsg initB64] ++ [promptMsg])
            ++ [delegationMsg "delegate_to_gui_operator"])
          = Except.ok (some initB64) := by
        rw [get_last_two_concat, scanCoact_delegation, scanCoact_prompt]
        exact hinv
      have hstep : runAux orch subOut 0 10 [initialUserMsg initB64]
          = (runAux orch subOut 1 9
                ((([initialUserMsg initB64] ++ [promptMsg])
                  ++ [delegationMsg "delegate_to_gui_operator"])
                  ++ [fcoMsg (some initB64)])).map
              (fun p => (RoundAction.delegated Agent.guiOperator :: p.1, p.2)) :=
        runAux_delegate_gui_step orch subOut 0 9 _ args0 s0 initB64
          h0 hs0 hh2 hinit hsub
      have hround1 : runAux orch subOut 1 9
          ((([initialUserMsg initB64] ++ [promptMsg])
            ++ [delegationMsg "delegate_to_gui_operator"])
            ++ [fcoMsg (some initB64)])
          = Except.ok ([RoundAction.completed], ExitKind.done) :=
        runAux_completed_step orch subOut 1 8 _ args1 s1 h1 hs1
      show (runAux orch subOut 0 10 [initialUserMsg initB64]).map
          (fun p => (p.1.length, p.2, p.1.getLast?,
            (p.1.filter RoundAction.isDelegated).length))
        = Except.ok (2, ExitKind.done, some RoundAction.completed, 1)
      rw [hstep, hround1]
      rfl
  · intro orch2 subOut2 b2 h
    show runAux orch2 subOut2 0 10 [initialUserMsg b2]
      = Except.ok ([RoundAction.noCall], ExitKind.noDelegation)
    exact runAux_noCall_step orch2 subOut2 0 9 _ h

/-- Witness for C4: a delegate-then-complete Orchestrator stub, and a
no-call Orchestrator stub, on concrete inputs. -/
theorem c4_done_on_task_completed_witness :
    (run (fun i => if i = 0
          then OrchTurn.call "delegate_to_programmer" (OrchArgs.dict "t")
          else OrchTurn.call "task_completed" (OrchArgs.strOk ""))
        (fun _ => []) "img").map
        (fun p => (p.1.length, p.2, p.1.getLast?,
          (p.1.filter RoundAction.isDelegated).length))
      = Except.ok (2, ExitKind.done, some RoundAction.completed, 1)
    ∧ run (fun _ => OrchTurn.noCall) (fun _ => []) "img"
        = Except.ok ([RoundAction.noCall], ExitKind.noDelegation) := by
  have h := c4_done_on_task_completed
    (fun i => if i = 0
      then OrchTurn.call "delegate_to_programmer" (OrchArgs.dict "t")
      else OrchTurn.call "task_completed" (OrchArgs.strOk ""))
    (fun _ => []) "img" "delegate_to_programmer" (OrchArgs.dict "t")
    (OrchArgs.strOk "") rfl (Or.inl rfl) (by decide) rfl (by decide) rfl
    (by decide)
  exact ⟨h.1, h.2 (fun _ => OrchTurn.noCall) (fun _ => []) "img" rfl⟩

/-- C8 (counterexample): an Orchestrator tool call whose string arguments
fail to parse makes `CoAct1.run` raise the `json.loads` error instead of
skipping the round. -/
theorem c8_counterexample_bad_args_raise :
    run (fun _ => OrchTurn.call "delegate_to_programmer" OrchArgs.strBad)
      (fun _ => []) "img" = Except.error PyErr.jsonDecodeError := rfl

/-- C8 (amended): an Orchestrator tool call whose name is none of the three
delegation signals but whose arguments parse does not raise: the round is
recorded as skipped and the loop continues into the next planning iteration;
a tool call whose string arguments fail to parse, however, raises an
uncaught error. -/
theorem c8_amended_unknown_skipped (orch : Nat → OrchTurn)
    (subOut : Nat → List Message) (i fuel : Nat) (hist : List Message)
    (name : String) (args : OrchArgs)
    (hturn : orch i = OrchTurn.call name args) (hargs : args ≠ OrchArgs.strBad)
    (h1 : name ≠ "task_completed") (h2 : name ≠ "delegate_to_programmer")
    (h3 : name ≠ "delegate_to_gui_operator") :
    runAux orch subOut i (fuel + 1) hist
      = (runAux orch subOut (i + 1) fuel
            ((hist ++ [promptMsg]) ++ [delegationMsg name])).map
          (fun p => (RoundAction.skippedUnknown name :: p.1, p.2)) := by
  obtain ⟨s, hs⟩ := argSubtask_ok hargs
  have hb1 : (name == "task_completed") = false := by simp [h1]
  have hb2 : (name == "delegate_to_programmer") = false := by simp [h2]
  have hb3 : (name == "delegate_to_gui_operator") = false := by simp [h3]
  simp only [runAux, hturn, hs, hb1, hb2, hb3, if_false, Bool.false_eq_true]
  cases hq : runAux orch subOut (i + 1) fuel
      ((hist ++ [promptMsg]) ++ [delegationMsg name]) with
  | error e => rfl
  | ok p => rfl

/-- Witness for the amended C8: an unknown tool name on round 1, on concrete
inputs; the round is skipped and the loop continues with one less step. -/
theorem c8_amended_unknown_skipped_witness :
    runAux (fun _ => OrchTurn.call "frobnicate" (OrchArgs.dict "x"))
        (fun _ => []) 0 10 [initialUserMsg "img"]
      = (runAux (fun _ => OrchTurn.call "frobnicate" (OrchArgs.dict "x"))
            (fun _ => []) 1 9
            (([initialUserMsg "img"] ++ [promptMsg]) ++ [delegationMsg "frobnicate"])).map
          (fun p => (RoundAction.skippedUnknown "frobnicate" :: p.1, p.2)) :=
  c8_amended_unknown_skipped _ _ 0 9 _ "frobnicate" (OrchArgs.dict "x")
    rfl (by decide) (by decide) (by decide) (by decide)

/-- C9: every method exposed by the GUI operator's `GuiInterfaceProxy` is a
pointer, keyboard or screen primitive, and none of the backend's
shell/command-execution operations is reachable through it. -/
theorem c9_gui_proxy_restricted :
    (guiInterfaceProxyMethods.all (fun m =>
        pointerMethods.contains m || keyboardMethods.contains m
          || screenMethods.contains m)) = true
    ∧ (shellMethods.all (fun m => !(guiInterfaceProxyMethods.contains m))) = true := by
  exact ⟨rfl, rfl⟩

/-- C10: `get_last_image_b64` in `coact_1_example.py` is not total: on a
history holding a `function_call_output` whose output list carries a
non-image item, it raises `UnboundLocalError` (the `startswith` test is
indented outside the `image_url` assignment guard), where the corrected
copy of the same function in `composed_grounded.py` returns `None`. -/
theorem c10_coact_get_last_image_raises :
    get_last_image_b64 [fcoTextOnly] = Except.error PyErr.unboundLocalError
    ∧ ComposedGrounded.get_last_image_b64 [fcoTextOnly] = none :=
  ⟨rfl, rfl⟩

end CoactExample
